import Mathlib

/-!
Verification of the panchayat-election module (src/12-panchayat-election.js).

The JavaScript source is shallowly embedded: JS runtime values that the module
inspects dynamically are modelled by the inductive type JSVal (numbers are
modelled as integers; the module only adds, increments and compares them),
the closure state of createElection is an explicit ElectionState record that
every method takes and, when it mutates, returns, and code that can throw a
TypeError returns Except Unit.  JS Sets are modelled as lists to which an
element is appended at most once; JS objects are association lists with
distinct keys, looked up by List.lookup.
-/

namespace Panchayat

/-- A JavaScript value, as far as this module inspects values dynamically:
undefined, null, booleans, numbers (an integer, or the number NaN — the
module's own arithmetic only seeds, increments, sums and compares, so
binary64 fractions and infinities never arise as stored values; numeric
strings are still converted exactly, see toNumber?), strings, plain
objects (own enumerable string-keyed properties, in insertion order) and
arrays. -/
inductive JSVal where
  | undefined : JSVal
  | vnull : JSVal
  | vbool : Bool → JSVal
  | num : Int → JSVal
  | nan : JSVal
  | vstr : String → JSVal
  | vobj : List (String × JSVal) → JSVal
  | varr : List JSVal → JSVal

/-- JS truthiness: undefined, null, false, 0, NaN and the empty string are
falsy; every object and array is truthy. -/
def truthyB : JSVal → Bool
  | .undefined => false
  | .vnull => false
  | .vbool b => b
  | .num n => n != 0
  | .nan => false
  | .vstr s => s ≠ ""
  | .vobj _ => true
  | .varr _ => true

/-- The JS typeof operator on the modelled values (note typeof null is
"object" and typeof NaN is "number"). -/
def typeofJS : JSVal → String
  | .undefined => "undefined"
  | .vnull => "object"
  | .vbool _ => "boolean"
  | .num _ => "number"
  | .nan => "number"
  | .vstr _ => "string"
  | .vobj _ => "object"
  | .varr _ => "object"

/-- Own-property lookup in an object's field list (objects cannot carry
duplicate keys, so field lists are keyed uniquely and the first match is
the property). -/
def lookupField (fields : List (String × JSVal)) (k : String) : JSVal :=
  match fields.lookup k with
  | some v => v
  | none => .undefined

/-- JS property read v[k].  Objects look up own properties; arrays expose
their elements under numeric keys and a length property; strings expose
characters and length.  Reads on other primitives yield undefined (the
module only reads properties after a truthiness or typeof guard, so the
throwing reads on null/undefined are never reached through these
definitions). -/
def getField : JSVal → String → JSVal
  | .vobj fields, k => lookupField fields k
  | .varr xs, k =>
      if k = "length" then .num xs.length
      else
        match k.toNat? with
        | some i => (xs.get? i).getD .undefined
        | none => .undefined
  | .vstr s, k =>
      if k = "length" then .num s.length
      else
        match k.toNat? with
        | some i =>
            match s.data.get? i with
            | some c => .vstr (String.mk [c])
            | none => .undefined
        | none => .undefined
  | _, _ => .undefined

/-- Is the value undefined (used for destructuring defaults, which apply
exactly when the property is undefined)? -/
def isUndefB : JSVal → Bool
  | .undefined => true
  | _ => false

/-- Loose equality to null (x == null holds exactly for null and
undefined). -/
def isNullish : JSVal → Bool
  | .undefined => true
  | .vnull => true
  | _ => false

mutual

/-- JS ToString on the modelled values, as used for template literals and
property keys.  Arrays stringify by joining their elements with commas,
null and undefined elements joining as the empty string. -/
def jsToString : JSVal → String
  | .undefined => "undefined"
  | .vnull => "null"
  | .vbool b => if b then "true" else "false"
  | .num n => toString n
  | .nan => "NaN"
  | .vstr s => s
  | .vobj _ => "[object Object]"
  | .varr xs => String.intercalate "," (arrElemStrings xs)

/-- Element strings for Array.prototype.join: null and undefined become
empty strings, every other element its ToString. -/
def arrElemStrings : List JSVal → List String
  | [] => []
  | x :: xs =>
      (match x with
       | .undefined => ""
       | .vnull => ""
       | y => jsToString y) :: arrElemStrings xs

end

/-- A JS number produced by ToNumber, for the relational comparison: a
finite exact value num/den (den a positive power of ten by construction —
string numeric literals denote their exact values; rounding to binary64
is not modelled), or an infinity.  An absent (NaN) result is the none of
Option JSRat. -/
inductive JSRat where
  | fin : Int → Nat → JSRat
  | pinf : JSRat
  | ninf : JSRat
deriving DecidableEq, Repr

/-- Numeric less-than on ToNumber results, by cross multiplication (the
denominators are positive). -/
def JSRat.ltB : JSRat → JSRat → Bool
  | .fin n1 d1, .fin n2 d2 => decide (n1 * (d2 : Int) < n2 * (d1 : Int))
  | .fin _ _, .pinf => true
  | .fin _ _, .ninf => false
  | .pinf, _ => false
  | .ninf, .ninf => false
  | .ninf, _ => true

/-- Numeric negation of a ToNumber result. -/
def JSRat.neg : JSRat → JSRat
  | .fin n d => .fin (-n) d
  | .pinf => .ninf
  | .ninf => .pinf

/-- The whitespace and line-terminator characters ToNumber trims from a
string. -/
def isJsWhitespace (c : Char) : Bool :=
  c == ' ' || c == '\t' || c == '\n' || c == '\r' || c == '\x0B' ||
  c == '\x0C' || c == '\u00A0' || c == '\uFEFF' || c == '\u1680' ||
  ('\u2000' ≤ c && c ≤ '\u200A') || c == '\u2028' || c == '\u2029' ||
  c == '\u202F' || c == '\u205F' || c == '\u3000'

/-- Trim ToNumber whitespace from both ends of a string. -/
def jsTrim (s : String) : List Char :=
  ((s.data.dropWhile isJsWhitespace).reverse.dropWhile isJsWhitespace).reverse

/-- The value of a decimal digit string (validity checked separately). -/
def digitsToNat (cs : List Char) : Nat :=
  cs.foldl (fun acc c => acc * 10 + (c.toNat - '0'.toNat)) 0

/-- A nonempty all-decimal-digit string's value. -/
def decNat? (cs : List Char) : Option Nat :=
  if cs ≠ [] ∧ cs.all (fun c => c.isDigit) then some (digitsToNat cs)
  else none

/-- Is the character a hexadecimal digit? -/
def isHexDigitB (c : Char) : Bool :=
  c.isDigit || ('a' ≤ c && c ≤ 'f') || ('A' ≤ c && c ≤ 'F')

/-- The value of a hexadecimal digit. -/
def hexDigitVal (c : Char) : Nat :=
  if c.isDigit then c.toNat - '0'.toNat
  else if 'a' ≤ c ∧ c ≤ 'f' then c.toNat - 'a'.toNat + 10
  else c.toNat - 'A'.toNat + 10

/-- A nonempty all-hex-digit string's value. -/
def hexNat? (cs : List Char) : Option Nat :=
  if cs ≠ [] ∧ cs.all isHexDigitB then
    some (cs.foldl (fun acc c => acc * 16 + hexDigitVal c) 0)
  else none

/-- A nonempty all-octal-digit string's value. -/
def octNat? (cs : List Char) : Option Nat :=
  if cs ≠ [] ∧ cs.all (fun c => '0' ≤ c && c ≤ '7') then
    some (cs.foldl (fun acc c => acc * 8 + (c.toNat - '0'.toNat)) 0)
  else none

/-- A nonempty all-binary-digit string's value. -/
def binNat? (cs : List Char) : Option Nat :=
  if cs ≠ [] ∧ cs.all (fun c => c == '0' || c == '1') then
    some (cs.foldl (fun acc c => acc * 2 + (c.toNat - '0'.toNat)) 0)
  else none

/-- The unsigned decimal mantissa digits [. digits], as an exact fraction
numerator/denominator with the denominator the power of ten of the
fraction length; at least one digit must be present. -/
def mantissa? (cs : List Char) : Option (Nat × Nat) :=
  let ip := cs.takeWhile (fun c => c != '.')
  let rest := cs.dropWhile (fun c => c != '.')
  match rest with
  | [] =>
      if cs ≠ [] ∧ cs.all (fun c => c.isDigit) then some (digitsToNat cs, 1)
      else none
  | _ :: fp =>
      if (ip ≠ [] ∨ fp ≠ []) ∧ ip.all (fun c => c.isDigit) ∧
          fp.all (fun c => c.isDigit) then
        some (digitsToNat ip * 10 ^ fp.length + digitsToNat fp,
          10 ^ fp.length)
      else none

/-- The optionally signed exponent digits of a numeric literal. -/
def expInt? (cs : List Char) : Option Int :=
  match cs with
  | '+' :: ds => (decNat? ds).map (fun n => (n : Int))
  | '-' :: ds => (decNat? ds).map (fun n => -(n : Int))
  | ds => (decNat? ds).map (fun n => (n : Int))

/-- Scale a mantissa by ten to the exponent. -/
def applyExp (m : Nat × Nat) (e : Int) : JSRat :=
  if 0 ≤ e then .fin ((m.1 : Int) * (10 : Int) ^ e.toNat) m.2
  else .fin (m.1 : Int) (m.2 * 10 ^ (-e).toNat)

/-- An unsigned StrDecimalLiteral: Infinity, or a mantissa with an
optional e/E exponent. -/
def strUnsigned? (cs : List Char) : Option JSRat :=
  if cs = ("Infinity".data) then some .pinf
  else
    let mant := cs.takeWhile (fun c => c != 'e' && c != 'E')
    let rest := cs.dropWhile (fun c => c != 'e' && c != 'E')
    match rest with
    | [] => (mantissa? mant).map (fun m => .fin (m.1 : Int) m.2)
    | _ :: ecs =>
        match mantissa? mant, expInt? ecs with
        | some m, some e => some (applyExp m e)
        | _, _ => none

/-- An optionally signed StrDecimalLiteral (the sign is only legal on the
decimal form, not on hex/octal/binary literals). -/
def strSigned? (cs : List Char) : Option JSRat :=
  match cs with
  | '+' :: body => strUnsigned? body
  | '-' :: body => (strUnsigned? body).map JSRat.neg
  | body => strUnsigned? body

/-- JS ToNumber on a string: trim whitespace, the empty remainder is 0,
a 0x/0o/0b prefix introduces an unsigned non-decimal integer literal, and
anything else must be a signed decimal literal (else NaN, the none). -/
def jsStrToNumber (s : String) : Option JSRat :=
  match jsTrim s with
  | [] => some (.fin 0 1)
  | '0' :: x :: ds =>
      if x == 'x' || x == 'X' then (hexNat? ds).map (fun n => .fin (n : Int) 1)
      else if x == 'o' || x == 'O' then
        (octNat? ds).map (fun n => .fin (n : Int) 1)
      else if x == 'b' || x == 'B' then
        (binNat? ds).map (fun n => .fin (n : Int) 1)
      else strSigned? ('0' :: x :: ds)
  | cs => strSigned? cs

/-- ToNumber: none stands for NaN.  Numbers are themselves, null is 0,
booleans 0/1, strings parse as exact numeric literals (jsStrToNumber),
and objects convert through ToPrimitive to a string first (plain objects
to "[object Object]", hence NaN; arrays to their join). -/
def toNumber? : JSVal → Option JSRat
  | .undefined => none
  | .vnull => some (.fin 0 1)
  | .vbool b => some (.fin (if b then 1 else 0) 1)
  | .num n => some (.fin n 1)
  | .nan => none
  | .vstr s => jsStrToNumber s
  | .vobj _ => jsStrToNumber "[object Object]"
  | .varr xs => jsStrToNumber (String.intercalate "," (arrElemStrings xs))

/-- The JS abstract relational comparison a < b: two strings compare
lexicographically, otherwise both sides convert with ToNumber and any NaN
makes the comparison false. -/
def jsLtB (a b : JSVal) : Bool :=
  match a, b with
  | .vstr x, .vstr y => decide (x < y)
  | x, y =>
      match toNumber? x with
      | none => false
      | some m =>
          match toNumber? y with
          | none => false
          | some n => JSRat.ltB m n

/-- Object.prototype.hasOwnProperty on the modelled values (only ever
called on truthy objects by the module). -/
def hasOwnB : JSVal → String → Bool
  | .vobj fields, k => (fields.lookup k).isSome
  | .varr xs, k =>
      if k = "length" then true
      else
        match k.toNat? with
        | some i => decide (i < xs.length)
        | none => false
  | _, _ => false

/-! ## The election session (createElection) -/

/-- A candidate record from the construction-time list: an object with id,
name and party.  The JS guard c && c.id admits a candidate into the vote
map exactly when the candidate is truthy with a truthy (non-empty) id;
list entries are modelled as candidate objects, the id truthiness test
becoming a non-emptiness test. -/
structure Candidate where
  id : String
  name : String
  party : String
deriving DecidableEq, Repr

/-- The private closure state of createElection: the candidates array, the
votes count object, the registered-voter Set and the voted Set (the sets
as duplicate-free lists in insertion order). -/
structure ElectionState where
  candidates : List Candidate
  votes : List (String × Nat)
  registered : List String
  voted : List String
deriving DecidableEq, Repr

/-- Does the votes object have candidateId as an own key
(votes.hasOwnProperty)? -/
def hasKeyB (m : List (String × Nat)) (k : String) : Bool :=
  m.any (fun p => p.1 == k)

/-- JS object assignment m[k] = v: overwrite in place if the key exists,
otherwise append the new key. -/
def upsertNat (m : List (String × Nat)) (k : String) (v : Nat) :
    List (String × Nat) :=
  if hasKeyB m k then m.map (fun p => if p.1 = k then (p.1, v) else p)
  else m ++ [(k, v)]

/-- votes[candidateId] += 1 (only executed on keys the map has). -/
def incrKey (m : List (String × Nat)) (k : String) : List (String × Nat) :=
  m.map (fun p => if p.1 = k then (p.1, p.2 + 1) else p)

/-- The count stored for a key, with the JS read votes[k] || 0 defaulting
an absent key to 0 (the first matching key is the property; field lists
representing objects carry distinct keys). -/
def countOf : List (String × Nat) → String → Nat
  | [], _ => 0
  | p :: rest, k => if p.1 = k then p.2 else countOf rest k

/-- Sum of the values of the votes object. -/
def sumValues (m : List (String × Nat)) : Nat :=
  (m.map (fun p => p.2)).sum

/-- The construction-time seeding loop: for each candidate c with c && c.id,
set votes[c.id] = 0. -/
def seedVotes (candidates : List Candidate) : List (String × Nat) :=
  candidates.foldl
    (fun m c => if c.id ≠ "" then upsertNat m c.id 0 else m) []

/-- createElection(candidates): seed the votes object and start with empty
registered and voted sets.  (A non-array candidates argument is normalized
to an empty list by the source before this point; the embedding takes the
normalized list.) -/
def createElection (candidates : List Candidate) : ElectionState :=
  { candidates := candidates
    votes := seedVotes candidates
    registered := []
    voted := [] }

/-- registerVoter(voter): fail (returning false, leaving the state alone)
when voter is falsy, voter.id or voter.name is not a string, voter.age is
not of type number, voter.age < 18 (the JS comparison, which is false for
a NaN age — so a NaN age passes this check), or the id is already
registered; otherwise add the id to the registered set and return true. -/
def registerVoter (s : ElectionState) (voter : JSVal) :
    ElectionState × Bool :=
  if ¬ truthyB voter then (s, false)
  else
    match getField voter "id", getField voter "name" with
    | .vstr i, .vstr _ =>
        if typeofJS (getField voter "age") ≠ "number" ∨
            jsLtB (getField voter "age") (.num 18) = true ∨
            i ∈ s.registered then (s, false)
        else ({ s with registered := s.registered ++ [i] }, true)
    | _, _ => (s, false)

/-- The receipt object { voterId, candidateId } handed to onSuccess. -/
structure Receipt where
  voterId : String
  candidateId : String
deriving DecidableEq, Repr

/-- castVote(voterId, candidateId, onSuccess, onError): run the three
checks in order, return the invoked handler's value, and on the success
path increment votes[candidateId] and add voterId to the voted set.  The
handlers are the post-normalization handlers of the source (a non-function
argument is replaced by a no-op; in the embedding that replacement is the
instance R := JSVal with the constant handler fun x => JSVal.undefined). -/
def castVote {R : Type} (s : ElectionState) (voterId candidateId : String)
    (onSuccess : Receipt → R) (onError : String → R) : ElectionState × R :=
  if voterId ∈ s.registered then
    if hasKeyB s.votes candidateId then
      if voterId ∈ s.voted then (s, onError "Voter has already voted")
      else
        ({ s with
            votes := incrKey s.votes candidateId
            voted := s.voted ++ [voterId] },
          onSuccess ⟨voterId, candidateId⟩)
    else (s, onError "Candidate does not exist")
  else (s, onError "Voter not registered")

/-- The result record { id, name, party, votes } of getResults. -/
structure ResultRecord where
  id : String
  name : String
  party : String
  votes : Nat
deriving DecidableEq, Repr

/-- The results array built by getResults before sorting: one record per
candidate, in candidate-list order, votes read as votes[c.id] || 0. -/
def buildResults (s : ElectionState) : List ResultRecord :=
  s.candidates.map (fun c =>
    { id := c.id, name := c.name, party := c.party
      votes := countOf s.votes c.id })

/-- The default comparator (a, b) => b.votes - a.votes. -/
def defaultCmp (a b : ResultRecord) : Int :=
  (b.votes : Int) - (a.votes : Int)

/-- The ordering a comparator induces: a stays before b when
cmp(a, b) <= 0. -/
def cmpLe (cmp : ResultRecord → ResultRecord → Int)
    (a b : ResultRecord) : Prop :=
  cmp a b ≤ 0

instance (cmp : ResultRecord → ResultRecord → Int) :
    DecidableRel (cmpLe cmp) := fun _ _ => inferInstanceAs (Decidable (_ ≤ _))

/-- getResults(sortFn): build the records and sort them with
Array.prototype.sort, which for a consistent comparator produces the
stable sorted permutation of the array (realized here by insertion sort,
which is stable); a missing (or non-function) sortFn selects the default
votes-descending comparator. -/
def getResults (s : ElectionState)
    (sortFn : Option (ResultRecord → ResultRecord → Int)) :
    List ResultRecord :=
  match sortFn with
  | some f => (buildResults s).insertionSort (cmpLe f)
  | none => (buildResults s).insertionSort (cmpLe defaultCmp)

/-- getWinner(): take this.getResults() (default sort), return null when
the array is empty or every record has zero votes, otherwise scan with
maxVotes starting at -1 keeping the first strict improvement. -/
def getWinner (s : ElectionState) : Option ResultRecord :=
  let results := getResults s none
  if results.length = 0 ∨ results.all (fun r => r.votes == 0) then none
  else
    (results.foldl
      (fun acc r =>
        if (r.votes : Int) > acc.1 then ((r.votes : Int), some r) else acc)
      (-1, none)).2

/-! ## createVoteValidator -/

/-- The { valid, reason } result of a validator; the degenerate validator
returns an object with no reason property (reason none). -/
structure VResult where
  valid : Bool
  reason : Option String
deriving DecidableEq, Repr

/-- A destructuring default const x = v with default d applies exactly when
the property value is undefined. -/
def destructDefault (v d : JSVal) : JSVal :=
  if isUndefB v then d else v

/-- The iteration protocol used by for..of: arrays iterate their elements,
strings their characters; other values (the defaults being substituted
beforehand for undefined) are not iterable and make for..of throw a
TypeError. -/
def iterElems : JSVal → Option (List JSVal)
  | .varr xs => some xs
  | .vstr s => some (s.data.map (fun c => .vstr (String.mk [c])))
  | _ => none

/-- The default required-fields list of createVoteValidator. -/
def defaultRequiredFields : JSVal :=
  .varr [.vstr "id", .vstr "name", .vstr "age"]

/-- The destructured minAge of the rules object, defaulting to 18. -/
def minAgeOf (rules : JSVal) : JSVal :=
  destructDefault (getField rules "minAge") (.num 18)

/-- The destructured requiredFields of the rules object, defaulting to
the id, name, age list. -/
def requiredFieldsOf (rules : JSVal) : JSVal :=
  destructDefault (getField rules "requiredFields") defaultRequiredFields

/-- createVoteValidator(rules): a non-truthy or non-object rules value
yields the degenerate always-invalid validator; otherwise minAge and
requiredFields destructure (with their defaults) and the returned
validator rejects non-object voters, then the first missing required field
in iteration order, then voter.age < minAge, and otherwise accepts.  A
validator run returns Except Unit VResult, the error standing for a thrown
TypeError (for..of over a non-iterable requiredFields). -/
def createVoteValidator (rules : JSVal) : JSVal → Except Unit VResult :=
  if ¬ (truthyB rules ∧ typeofJS rules = "object") then
    fun _ => .ok { valid := false, reason := none }
  else
    fun voter =>
      if ¬ (truthyB voter ∧ typeofJS voter = "object") then
        .ok { valid := false, reason := some "Invalid voter object" }
      else
        match iterElems (requiredFieldsOf rules) with
        | none => .error ()
        | some fields =>
            match fields.find? (fun f => ! hasOwnB voter (jsToString f)) with
            | some f =>
                .ok { valid := false
                      reason := some ("Missing field: " ++ jsToString f) }
            | none =>
                if jsLtB (getField voter "age") (minAgeOf rules) then
                  .ok { valid := false
                        reason := some ("Voter below minimum age " ++
                          jsToString (minAgeOf rules)) }
                else .ok { valid := true, reason := some "" }

/-! ## countVotesInRegions -/

theorem sizeOf_lookup_lt {fields : List (String × JSVal)} {k : String}
    {v : JSVal} (h : fields.lookup k = some v) :
    sizeOf v < sizeOf (JSVal.vobj fields) := by
  have hmem : (k, v) ∈ fields := by
    induction fields with
    | nil => simp [List.lookup] at h
    | cons p rest ih =>
        cases p with
        | mk k' v' =>
            by_cases hk : k = k'
            · subst hk
              simp [List.lookup] at h
              subst h
              exact List.mem_cons_self _ _
            · have hkb : (k == k') = false := by
                simpa using hk
              simp [List.lookup, hkb] at h
              exact List.mem_cons_of_mem _ (ih h)
  have h1 : sizeOf (k, v) < sizeOf fields := List.sizeOf_lt_of_mem hmem
  have h2 : sizeOf v < sizeOf (k, v) := by
    simp only [Prod.mk.sizeOf_spec]
    omega
  simp only [JSVal.vobj.sizeOf_spec]
  omega

theorem sizeOf_getField_varr {t : JSVal} {k : String} {xs : List JSVal}
    (h : getField t k = .varr xs) {x : JSVal} (hx : x ∈ xs) :
    sizeOf x < sizeOf t := by
  have hxl : sizeOf x < sizeOf (JSVal.varr xs) := by
    have := List.sizeOf_lt_of_mem hx
    simp only [JSVal.varr.sizeOf_spec]
    omega
  cases t with
  | vobj fields =>
      simp only [getField, lookupField] at h
      cases hcase : fields.lookup k with
      | none => rw [hcase] at h; simp at h
      | some v =>
          rw [hcase] at h
          simp only at h
          subst h
          exact lt_trans hxl (sizeOf_lookup_lt hcase)
  | varr ys =>
      simp only [getField] at h
      split at h
      · simp at h
      · split at h
        · rename_i i _
          cases hget : ys.get? i with
          | none => rw [hget] at h; simp at h
          | some y =>
              rw [hget] at h
              simp only [Option.getD_some] at h
              subst h
              have hy : JSVal.varr xs ∈ ys := List.get?_mem hget
              have h2 := List.sizeOf_lt_of_mem hy
              have h3 : sizeOf (JSVal.varr ys) = 1 + sizeOf ys :=
                JSVal.varr.sizeOf_spec ys
              have h4 : sizeOf (JSVal.varr xs) = 1 + sizeOf xs :=
                JSVal.varr.sizeOf_spec xs
              omega
        · simp at h
  | vstr s =>
      simp only [getField] at h
      split at h
      · simp at h
      · split at h
        · split at h
          · simp at h
          · simp at h
        · simp at h
  | undefined => simp [getField] at h
  | vnull => simp [getField] at h
  | vbool b => simp [getField] at h
  | num n => simp [getField] at h
  | nan => simp [getField] at h

/-- A number computed by countVotesInRegions: an integer total, or NaN
(a NaN votes property is of type number and so enters the total, which
then stays NaN through every further addition). -/
inductive JSNum where
  | int : Int → JSNum
  | nan : JSNum
deriving DecidableEq, Repr

/-- JS addition on the module's number values: NaN absorbs. -/
def JSNum.add : JSNum → JSNum → JSNum
  | .int a, .int b => .int (a + b)
  | _, _ => .nan

instance : Add JSNum := ⟨JSNum.add⟩

instance : Zero JSNum := ⟨.int 0⟩

/-- countVotesInRegions(regionTree): 0 for falsy or non-object input,
otherwise the votes property when of type number (a NaN votes value
included — else 0) plus the recursive count of every element of an
array-valued subRegions property, with JS (NaN-absorbing) addition. -/
def countVotesInRegions (t : JSVal) : JSNum :=
  if ¬ truthyB t ∨ typeofJS t ≠ "object" then .int 0
  else
    (match getField t "votes" with
     | .num n => JSNum.int n
     | .nan => JSNum.nan
     | _ => JSNum.int 0) +
    (match hsub : getField t "subRegions" with
     | .varr xs =>
         (xs.attach.map (fun x => countVotesInRegions x.1)).sum
     | _ => JSNum.int 0)
termination_by sizeOf t
decreasing_by
  exact sizeOf_getField_varr hsub x.2

/-- The recursion equation of countVotesInRegions, with the recursive call
mapped plainly over the subRegions elements. -/
theorem countVotesInRegions_eq (t : JSVal) :
    countVotesInRegions t =
      if ¬ truthyB t ∨ typeofJS t ≠ "object" then .int 0
      else
        (match getField t "votes" with
         | .num n => JSNum.int n
         | .nan => JSNum.nan
         | _ => JSNum.int 0) +
        (match getField t "subRegions" with
         | .varr xs => (xs.map countVotesInRegions).sum
         | _ => JSNum.int 0) := by
  conv_lhs => rw [countVotesInRegions]
  split
  · rfl
  · congr 1
    split
    · rename_i xs heq
      rw [List.attach_map_val xs countVotesInRegions, heq]
    · rename_i hne
      split
      · rename_i xs heq
        exact (hne xs heq).elim
      · rfl

/-! ## tallyPure, over an explicit object heap

tallyPure's contract is about object identity (the caller's tally object
must not be mutated), so it is embedded over an explicit heap: a tally
object is a list of string-keyed integer counts, a heap is the list of
allocated objects, and an object value is an index into the heap.  The
function returns Except Unit, the error standing for a thrown TypeError. -/

/-- A tally object: own string-keyed integer-count properties in insertion
order. -/
abbrev TallyObj := List (String × Int)

/-- The heap of allocated tally objects; an object reference is an index. -/
abbrev Heap := List TallyObj

/-- A JS value as passed to tallyPure: primitives, null/undefined, or a
reference to a heap object. -/
inductive HVal where
  | undefined : HVal
  | hnull : HVal
  | hbool : Bool → HVal
  | hnum : Int → HVal
  | hstr : String → HVal
  | href : Nat → HVal
deriving DecidableEq, Repr

/-- typeof on heap-level values (typeof null = "object"). -/
def typeofH : HVal → String
  | .undefined => "undefined"
  | .hnull => "object"
  | .hbool _ => "boolean"
  | .hnum _ => "number"
  | .hstr _ => "string"
  | .href _ => "object"

/-- Loose equality to null. -/
def isNullishH : HVal → Bool
  | .undefined => true
  | .hnull => true
  | _ => false

/-- ToPropertyKey (String conversion) of the candidateId argument. -/
def propKeyH : HVal → String
  | .undefined => "undefined"
  | .hnull => "null"
  | .hbool b => if b then "true" else "false"
  | .hnum n => toString n
  | .hstr s => s
  | .href _ => "[object Object]"

/-- Object assignment inside an object literal: a repeated key keeps its
position and takes the new value, a fresh key is appended. -/
def upsertInt (fields : TallyObj) (k : String) (v : Int) : TallyObj :=
  if (fields.lookup k).isSome then
    fields.map (fun p => if p.1 == k then (p.1, v) else p)
  else fields ++ [(k, v)]

/-- tallyPure(currentTally, candidateId) over the heap.  The guard
typeof currentTally !== "object" || candidateId == null allocates and
returns a fresh empty object; past the guard, currentTally is null (which
typeof calls an object!) or an object reference, and the property read
currentTally[candidateId] on null throws a TypeError (Except.error).  On a
reference the spread-and-increment object literal allocates a fresh object
whose fields copy the input's, with candidateId's count replaced by
(currentTally[candidateId] || 0) + 1. -/
def tallyPure (h : Heap) (currentTally candidateId : HVal) :
    Except Unit (Heap × HVal) :=
  if typeofH currentTally ≠ "object" ∨ isNullishH candidateId then
    .ok (h ++ [[]], .href h.length)
  else
    match currentTally with
    | .hnull => .error ()
    | .href r =>
        match h.get? r with
        | some fields =>
            let k := propKeyH candidateId
            let old : Int := (fields.lookup k).getD 0
            .ok (h ++ [upsertInt fields k (old + 1)], .href h.length)
        | none => .error ()
    | _ => .error ()

/-! ## Helper lemmas about the vote-count object -/

theorem countOf_incrKey_self (m : List (String × Nat)) (c : String)
    (h : hasKeyB m c = true) :
    countOf (incrKey m c) c = countOf m c + 1 := by
  induction m with
  | nil => simp [hasKeyB] at h
  | cons p rest ih =>
      obtain ⟨k', v⟩ := p
      simp only [incrKey] at ih ⊢
      by_cases hk : k' = c
      · simp [countOf, hk]
      · have hkb : (k' == c) = false := by simpa using hk
        have h' : hasKeyB rest c = true := by
          simpa [hasKeyB, hkb] using h
        simp [countOf, hk, ih h']

theorem countOf_incrKey_other (m : List (String × Nat)) (c k : String)
    (h : k ≠ c) : countOf (incrKey m c) k = countOf m k := by
  induction m with
  | nil => rfl
  | cons p rest ih =>
      obtain ⟨k', v⟩ := p
      simp only [incrKey] at ih ⊢
      by_cases hc : k' = c
      · have hck : k' ≠ k := fun hh => h (hh.symm.trans hc)
        simp [countOf, hc, hck, ih, (hc ▸ hck : c ≠ k)]
      · simp [countOf, hc, ih]

/-! ## Claim C1 -/

/-- Claim C1: castVote runs its checks in order — an unregistered voterId
invokes onError "Voter not registered", an unknown candidateId invokes
onError "Candidate does not exist", an already-voted voterId invokes
onError "Voter has already voted", and otherwise the candidate's count is
incremented (all other counts untouched), the voterId is appended to the
voted set, and onSuccess receives the receipt; on every onError path the
whole state is unchanged, and in every case castVote returns exactly the
invoked handler's value.  (An omitted handler is the source's substituted
no-op, the instance R := JSVal, handler fun x => JSVal.undefined.) -/
theorem c1_castVote_spec {R : Type} (s : ElectionState) (v c : String)
    (onS : Receipt → R) (onE : String → R) :
    (v ∉ s.registered →
       castVote s v c onS onE = (s, onE "Voter not registered")) ∧
    (v ∈ s.registered → hasKeyB s.votes c = false →
       castVote s v c onS onE = (s, onE "Candidate does not exist")) ∧
    (v ∈ s.registered → hasKeyB s.votes c = true → v ∈ s.voted →
       castVote s v c onS onE = (s, onE "Voter has already voted")) ∧
    (v ∈ s.registered → hasKeyB s.votes c = true → v ∉ s.voted →
       (castVote s v c onS onE).2 = onS ⟨v, c⟩ ∧
       countOf (castVote s v c onS onE).1.votes c = countOf s.votes c + 1 ∧
       (∀ k, k ≠ c →
          countOf (castVote s v c onS onE).1.votes k = countOf s.votes k) ∧
       (castVote s v c onS onE).1.voted = s.voted ++ [v] ∧
       (castVote s v c onS onE).1.registered = s.registered ∧
       (castVote s v c onS onE).1.candidates = s.candidates) := by
  refine ⟨?_, ?_, ?_, ?_⟩
  · intro h1
    simp [castVote, h1]
  · intro h1 h2
    simp [castVote, h1, h2]
  · intro h1 h2 h3
    simp [castVote, h1, h2, h3]
  · intro h1 h2 h3
    have hc : castVote s v c onS onE =
        ({ s with
            votes := incrKey s.votes c
            voted := s.voted ++ [v] },
          onS ⟨v, c⟩) := by
      simp [castVote, h1, h2, h3]
    rw [hc]
    refine ⟨rfl, ?_, ?_, rfl, rfl, rfl⟩
    · exact countOf_incrKey_self s.votes c h2
    · intro k hk
      exact countOf_incrKey_other s.votes c k hk

/-- Demo data shared by the concrete witnesses: the two example candidates
and the example voter of the source's doc comment. -/
def demoCandidates : List Candidate :=
  [⟨"C1", "Sarpanch Ram", "Janata"⟩, ⟨"C2", "Pradhan Sita", "Lok"⟩]

/-- The example voter object. -/
def demoVoter : JSVal :=
  .vobj [("id", .vstr "V1"), ("name", .vstr "Mohan"), ("age", .num 25)]

/-- The session state after registering the example voter. -/
def demoS1 : ElectionState :=
  (registerVoter (createElection demoCandidates) demoVoter).1

/-- Witness for C1: in the concrete session, the successful cast returns
the onSuccess handler's value built from the receipt, and the candidate's
count becomes 1. -/
theorem c1_castVote_witness :
    (castVote demoS1 "V1" "C1"
        (fun r => r.voterId ++ "|" ++ r.candidateId) (fun e => e)).2 =
      "V1|C1" ∧
    countOf (castVote demoS1 "V1" "C1"
        (fun r => r.voterId ++ "|" ++ r.candidateId) (fun e => e)).1.votes
      "C1" = 1 := by
  have h := (c1_castVote_spec (R := String) demoS1 "V1" "C1"
    (fun r => r.voterId ++ "|" ++ r.candidateId) (fun e => e)).2.2.2
    (by decide) (by decide) (by decide)
  refine ⟨h.1, ?_⟩
  rw [h.2.1]
  decide

/-! ## Claim C3 -/

/-- The failing input for claim C3 as stated: a voter whose age is the
number NaN. -/
def nanAgeVoter : JSVal :=
  .vobj [("id", .vstr "VN"), ("name", .vstr "Nila"), ("age", .nan)]

/-- Counterexample to claim C3 as stated: a voter with age NaN registers
successfully and mutates the registered set — typeof NaN is "number" and
NaN < 18 is false, so the source's guard passes — although NaN is not a
numeric age of at least 18 (every JS comparison against NaN is false), so
the claim's iff and its no-state-change clause both fail at this input. -/
theorem c3_counterexample :
    (registerVoter (createElection demoCandidates) nanAgeVoter).2 = true ∧
    getField nanAgeVoter "age" = .nan ∧
    (registerVoter (createElection demoCandidates) nanAgeVoter).1.registered
      = ["VN"] :=
  ⟨rfl, rfl, rfl⟩

/-- Claim C3 as amended: registerVoter(voter) returns true and appends
voter.id to the registered set exactly when voter is truthy with string
id, string name, an age of type number for which the JS comparison
age < 18 is false (every integer age of at least 18 and also a NaN age,
since comparisons against NaN are false), and an id not registered yet;
in every failing case (re-registration included) it returns false and
the state is untouched. -/
theorem c3_registerVoter_spec (s : ElectionState) (voter : JSVal) :
    ((registerVoter s voter).2 = true ↔
       (truthyB voter = true ∧
        (∃ i, getField voter "id" = .vstr i ∧ i ∉ s.registered) ∧
        (∃ n, getField voter "name" = .vstr n) ∧
        typeofJS (getField voter "age") = "number" ∧
        jsLtB (getField voter "age") (.num 18) = false)) ∧
    (∀ i, getField voter "id" = .vstr i → (registerVoter s voter).2 = true →
       (registerVoter s voter).1 =
         { s with registered := s.registered ++ [i] }) ∧
    ((registerVoter s voter).2 = false → (registerVoter s voter).1 = s) := by
  by_cases htr : truthyB voter = true
  · cases hid : getField voter "id" with
    | vstr i =>
        cases hname : getField voter "name" with
        | vstr nm =>
            have hred : registerVoter s voter =
                if typeofJS (getField voter "age") ≠ "number" ∨
                    jsLtB (getField voter "age") (.num 18) = true ∨
                    i ∈ s.registered then (s, false)
                else ({ s with registered := s.registered ++ [i] },
                  true) := by
              simp [registerVoter, htr, hid, hname]
            by_cases hfail : typeofJS (getField voter "age") ≠ "number" ∨
                jsLtB (getField voter "age") (.num 18) = true ∨
                i ∈ s.registered
            · rw [hred, if_pos hfail]
              refine ⟨?_, ?_, fun _ => rfl⟩
              · constructor
                · intro hc
                  cases hc
                · rintro ⟨-, ⟨i', hi', hreg⟩, -, htyp, hlt⟩
                  injection hi' with hi2
                  subst hi2
                  rcases hfail with hf | hf | hf
                  · exact (hf htyp).elim
                  · rw [hf] at hlt
                    cases hlt
                  · exact (hreg hf).elim
              · intro i' _ hc
                cases hc
            · rw [hred, if_neg hfail]
              push_neg at hfail
              have hltf : jsLtB (getField voter "age") (.num 18) = false :=
                Bool.eq_false_iff.mpr hfail.2.1
              refine ⟨?_, ?_, ?_⟩
              · exact ⟨fun _ => ⟨htr, ⟨i, rfl, hfail.2.2⟩, ⟨nm, rfl⟩,
                  hfail.1, hltf⟩, fun _ => rfl⟩
              · intro i' hi' _
                injection hi' with hi2
                rw [hi2]
              · intro hfalse
                cases hfalse
        | undefined => exact ⟨by simp [registerVoter, htr, hid, hname],
            by simp [registerVoter, htr, hid, hname],
            by simp [registerVoter, htr, hid, hname]⟩
        | vnull => exact ⟨by simp [registerVoter, htr, hid, hname],
            by simp [registerVoter, htr, hid, hname],
            by simp [registerVoter, htr, hid, hname]⟩
        | vbool b => exact ⟨by simp [registerVoter, htr, hid, hname],
            by simp [registerVoter, htr, hid, hname],
            by simp [registerVoter, htr, hid, hname]⟩
        | num n => exact ⟨by simp [registerVoter, htr, hid, hname],
            by simp [registerVoter, htr, hid, hname],
            by simp [registerVoter, htr, hid, hname]⟩
        | nan => exact ⟨by simp [registerVoter, htr, hid, hname],
            by simp [registerVoter, htr, hid, hname],
            by simp [registerVoter, htr, hid, hname]⟩
        | vobj o => exact ⟨by simp [registerVoter, htr, hid, hname],
            by simp [registerVoter, htr, hid, hname],
            by simp [registerVoter, htr, hid, hname]⟩
        | varr xs => exact ⟨by simp [registerVoter, htr, hid, hname],
            by simp [registerVoter, htr, hid, hname],
            by simp [registerVoter, htr, hid, hname]⟩
    | undefined => exact ⟨by simp [registerVoter, htr, hid],
        by simp [registerVoter, htr, hid], by simp [registerVoter, htr, hid]⟩
    | vnull => exact ⟨by simp [registerVoter, htr, hid],
        by simp [registerVoter, htr, hid], by simp [registerVoter, htr, hid]⟩
    | vbool b => exact ⟨by simp [registerVoter, htr, hid],
        by simp [registerVoter, htr, hid], by simp [registerVoter, htr, hid]⟩
    | num n => exact ⟨by simp [registerVoter, htr, hid],
        by simp [registerVoter, htr, hid], by simp [registerVoter, htr, hid]⟩
    | nan => exact ⟨by simp [registerVoter, htr, hid],
        by simp [registerVoter, htr, hid], by simp [registerVoter, htr, hid]⟩
    | vobj o => exact ⟨by simp [registerVoter, htr, hid],
        by simp [registerVoter, htr, hid], by simp [registerVoter, htr, hid]⟩
    | varr xs => exact ⟨by simp [registerVoter, htr, hid],
        by simp [registerVoter, htr, hid], by simp [registerVoter, htr, hid]⟩
  · simp [registerVoter, htr]

/-- Witness for C3 (amended): the example voter registers successfully in
the fresh session, and the state gains exactly the id V1. -/
theorem c3_registerVoter_witness :
    (registerVoter (createElection demoCandidates) demoVoter).2 = true ∧
    (registerVoter (createElection demoCandidates) demoVoter).1 =
      { createElection demoCandidates with registered := ["V1"] } := by
  have h := c3_registerVoter_spec (createElection demoCandidates) demoVoter
  have h2 : (registerVoter (createElection demoCandidates) demoVoter).2 =
      true := by
    apply h.1.mpr
    exact ⟨rfl, ⟨"V1", rfl, by decide⟩, ⟨"Mohan", rfl⟩, rfl, by decide⟩
  refine ⟨h2, ?_⟩
  have h3 := h.2.1 "V1" rfl h2
  rw [h3]
  rfl

/-! ## Claims C5 and C6 -/

/-- Claim C5 (refuted by the code, code bug): the claim says tallyPure
never signals an error and fails safe with an empty mapping on a
non-mapping currentTally, but a null currentTally passes the guard (typeof
null is "object") and the property read null[candidateId] then throws a
TypeError.  This theorem evaluates tallyPure at the failing input
tallyPure(null, "a"). -/
theorem c5_tallyPure_null_throws :
    tallyPure [] .hnull (.hstr "a") = .error () := rfl

/-- Claim C6: tallyPure never modifies any previously allocated object —
in particular its input mapping; every non-throwing run only appends one
freshly allocated object to the heap. -/
theorem c6_tallyPure_frame (h : Heap) (t c : HVal) (h' : Heap) (v : HVal)
    (hok : tallyPure h t c = .ok (h', v)) :
    ∀ i, i < h.length → h'.get? i = h.get? i := by
  intro i hi
  unfold tallyPure at hok
  split at hok
  · simp only [Except.ok.injEq, Prod.mk.injEq] at hok
    rw [← hok.1]
    exact List.get?_append hi
  · split at hok
    · cases hok
    · rename_i r hg
      cases hget : h.get? r with
      | some fields =>
          rw [hget] at hok
          simp only [Except.ok.injEq, Prod.mk.injEq] at hok
          rw [← hok.1]
          exact List.get?_append hi
      | none =>
          rw [hget] at hok
          cases hok
    · cases hok

/-- Witness for C6: incrementing key a of the heap object {a:1} returns a
fresh object {a:2} and the original object at index 0 still holds
{a:1}. -/
theorem c6_tallyPure_frame_witness :
    tallyPure [[("a", 1)]] (.href 0) (.hstr "a") =
      .ok ([[("a", 1)], [("a", 2)]], .href 1) ∧
    ([[("a", 1)], [("a", 2)]] : Heap).get? 0 = some [("a", 1)] := by
  refine ⟨rfl, ?_⟩
  have hfr := c6_tallyPure_frame [[("a", 1)]] (.href 0) (.hstr "a")
    [[("a", 1)], [("a", 2)]] (.href 1) rfl 0 (by decide)
  rw [hfr]
  rfl

/-! ## Claim C9 -/

/-- The first subregion of the spec's example tree. -/
def demoSubRegion1 : JSVal :=
  .vobj [("votes", .num 3), ("subRegions", .varr [])]

/-- The second subregion of the spec's example tree. -/
def demoSubRegion2 : JSVal :=
  .vobj [("votes", .num 1)]

/-- The region tree of the spec's example. -/
def demoRegionTree : JSVal :=
  .vobj [("votes", .num 2),
    ("subRegions", .varr [demoSubRegion1, demoSubRegion2])]

/-- Claim C9: countVotesInRegions returns 0 for null or non-object input
and otherwise the number-typed votes property (else 0) plus the recursive
sum over the subRegions elements (an absent or non-array subRegions
counting as empty); on the spec's example tree it returns 6, and on null
it returns 0. -/
theorem c9_countVotesInRegions_spec :
    (∀ t : JSVal, countVotesInRegions t =
       if ¬ truthyB t ∨ typeofJS t ≠ "object" then .int 0
       else
         (match getField t "votes" with
          | .num n => JSNum.int n
          | .nan => JSNum.nan
          | _ => JSNum.int 0) +
         (match getField t "subRegions" with
          | .varr xs => (xs.map countVotesInRegions).sum
          | _ => JSNum.int 0)) ∧
    countVotesInRegions demoRegionTree = .int 6 ∧
    countVotesInRegions .vnull = .int 0 := by
  refine ⟨countVotesInRegions_eq, ?_, ?_⟩
  · have h1 : countVotesInRegions demoSubRegion1 = .int 3 := by
      rw [countVotesInRegions_eq]
      rfl
    have h2 : countVotesInRegions demoSubRegion2 = .int 1 := by
      rw [countVotesInRegions_eq]
      rfl
    rw [countVotesInRegions_eq]
    show JSNum.int 2 +
      ([demoSubRegion1, demoSubRegion2].map countVotesInRegions).sum =
        .int 6
    rw [List.map_cons, List.map_cons, List.map_nil, h1, h2]
    rfl
  · rw [countVotesInRegions_eq]
    rfl

/-! ## Claim C2: the session invariant -/

theorem hasKeyB_iff (m : List (String × Nat)) (k : String) :
    hasKeyB m k = true ↔ k ∈ m.map Prod.fst := by
  simp [hasKeyB, List.any_eq_true, List.mem_map]

theorem incrKey_not_hasKey (m : List (String × Nat)) (c : String)
    (h : hasKeyB m c = false) : incrKey m c = m := by
  induction m with
  | nil => rfl
  | cons p rest ih =>
      simp only [hasKeyB, List.any_cons, Bool.or_eq_false_iff] at h
      have h1 : ¬ p.1 = c := by simpa using h.1
      have h2 : hasKeyB rest c = false := h.2
      simpa [incrKey, h1] using ih h2

theorem map_fst_update (m : List (String × Nat)) (k : String)
    (g : Nat → Nat) :
    (m.map (fun p => if p.1 = k then (p.1, g p.2) else p)).map Prod.fst =
      m.map Prod.fst := by
  induction m with
  | nil => rfl
  | cons p rest ih =>
      by_cases hk : p.1 = k
      · simp [hk, ih]
      · simp [hk, ih]

theorem sumValues_incrKey (m : List (String × Nat)) (c : String)
    (hnd : (m.map Prod.fst).Nodup) (h : hasKeyB m c = true) :
    sumValues (incrKey m c) = sumValues m + 1 := by
  induction m with
  | nil => simp [hasKeyB] at h
  | cons p rest ih =>
      obtain ⟨k, v⟩ := p
      simp only [List.map_cons, List.nodup_cons] at hnd
      by_cases hk : k = c
      · subst hk
        have hrest : hasKeyB rest k = false := by
          cases hcase : hasKeyB rest k
          · rfl
          · exact absurd ((hasKeyB_iff rest k).mp hcase) hnd.1
        have hni : incrKey rest k = rest := incrKey_not_hasKey rest k hrest
        simp only [incrKey, List.map_cons, if_pos rfl] at hni ⊢
        rw [hni]
        simp [sumValues]
        omega
      · have hrest : hasKeyB rest c = true := by
          have hkb : (k == c) = false := by simpa using hk
          simpa [hasKeyB, hkb] using h
        have ih2 := ih hnd.2 hrest
        simp only [incrKey, List.map_cons, if_neg hk] at ih2 ⊢
        simp [sumValues] at ih2 ⊢
        omega

theorem sumValues_zero (m : List (String × Nat))
    (hz : ∀ p ∈ m, p.2 = 0) : sumValues m = 0 := by
  induction m with
  | nil => rfl
  | cons p rest ih =>
      have h0 : p.2 = 0 := hz p (List.mem_cons_self _ _)
      have hrest : ∀ q ∈ rest, q.2 = 0 :=
        fun q hq => hz q (List.mem_cons_of_mem _ hq)
      simp [sumValues, h0]
      simpa [sumValues] using ih hrest

theorem upsertNat_zero_preserve (m : List (String × Nat)) (k : String)
    (hz : ∀ p ∈ m, p.2 = 0) :
    ∀ p ∈ upsertNat m k 0, p.2 = 0 := by
  intro p hp
  unfold upsertNat at hp
  split at hp
  · obtain ⟨q, hq, hqe⟩ := List.mem_map.mp hp
    by_cases hqk : q.1 = k
    · rw [if_pos hqk] at hqe
      rw [← hqe]
    · rw [if_neg hqk] at hqe
      rw [← hqe]
      exact hz q hq
  · rcases List.mem_append.mp hp with hm | hm
    · exact hz p hm
    · simp only [List.mem_singleton] at hm
      rw [hm]

theorem upsertNat_keys_nodup (m : List (String × Nat)) (k : String)
    (hnd : (m.map Prod.fst).Nodup) :
    ((upsertNat m k 0).map Prod.fst).Nodup := by
  unfold upsertNat
  split
  · have hkeys :
        ((m.map (fun p => if p.1 = k then (p.1, (0 : Nat)) else p)).map
          Prod.fst) = m.map Prod.fst :=
      map_fst_update m k (fun _ => 0)
    rw [hkeys]
    exact hnd
  · rename_i hnk
    rw [List.map_append]
    refine List.Nodup.append hnd (by simp) ?_
    intro a ha hb
    simp only [List.map_cons, List.map_nil, List.mem_singleton] at hb
    subst hb
    have : hasKeyB m a = true := (hasKeyB_iff m a).mpr ha
    exact hnk this

theorem seedVotes_foldl_inv (cs : List Candidate) (m : List (String × Nat))
    (hz : ∀ p ∈ m, p.2 = 0) (hnd : (m.map Prod.fst).Nodup) :
    (∀ p ∈ cs.foldl
        (fun m c => if c.id ≠ "" then upsertNat m c.id 0 else m) m,
       p.2 = 0) ∧
    ((cs.foldl (fun m c => if c.id ≠ "" then upsertNat m c.id 0 else m)
        m).map Prod.fst).Nodup := by
  induction cs generalizing m with
  | nil => exact ⟨hz, hnd⟩
  | cons c rest ih =>
      rw [List.foldl_cons]
      by_cases hc : c.id ≠ ""
      · rw [if_pos hc]
        exact ih _ (upsertNat_zero_preserve m c.id hz)
          (upsertNat_keys_nodup m c.id hnd)
      · rw [if_neg hc]
        exact ih _ hz hnd

theorem registerVoter_preserves (s : ElectionState) (v : JSVal) :
    (registerVoter s v).1.votes = s.votes ∧
    (registerVoter s v).1.voted = s.voted := by
  unfold registerVoter
  split
  · exact ⟨rfl, rfl⟩
  · split
    · split
      · exact ⟨rfl, rfl⟩
      · exact ⟨rfl, rfl⟩
    · exact ⟨rfl, rfl⟩

/-- The state component of a castVote call (the state update does not
depend on the handlers). -/
def castVoteState (s : ElectionState) (v c : String) : ElectionState :=
  (castVote s v c (fun _ => ()) (fun _ => ())).1

/-- The session states reachable through the public operations: a freshly
constructed election followed by any sequence of registerVoter and
castVote calls (getResults and getWinner read the state without writing
it, so they do not contribute steps). -/
inductive Reachable : ElectionState → Prop where
  | init (cs : List Candidate) : Reachable (createElection cs)
  | register (s : ElectionState) (v : JSVal) :
      Reachable s → Reachable (registerVoter s v).1
  | cast (s : ElectionState) (v c : String) :
      Reachable s → Reachable (castVoteState s v c)

theorem reachable_invariant (s : ElectionState) (h : Reachable s) :
    (s.votes.map Prod.fst).Nodup ∧ s.voted.Nodup ∧
    sumValues s.votes = s.voted.length := by
  induction h with
  | init cs =>
      have hseed := seedVotes_foldl_inv cs [] (by simp) (by simp)
      refine ⟨hseed.2, List.nodup_nil, ?_⟩
      show sumValues (seedVotes cs) = ([] : List String).length
      have hz : sumValues (seedVotes cs) = 0 := sumValues_zero _ hseed.1
      rw [hz]
      rfl
  | register s v _ ih =>
      obtain ⟨h1, h2⟩ := registerVoter_preserves s v
      rw [h1, h2]
      exact ih
  | cast s v c _ ih =>
      unfold castVoteState castVote
      by_cases h1 : v ∈ s.registered
      · by_cases h2 : hasKeyB s.votes c = true
        · by_cases h3 : v ∈ s.voted
          · simp only [if_pos h1, if_pos h2, if_pos h3]
            exact ih
          · simp only [if_pos h1, if_pos h2, if_neg h3]
            have hkeys : (incrKey s.votes c).map Prod.fst =
                s.votes.map Prod.fst :=
              map_fst_update s.votes c (fun x => x + 1)
            refine ⟨by rw [hkeys]; exact ih.1, ?_, ?_⟩
            · rw [List.nodup_append]
              exact ⟨ih.2.1, by simp, by
                intro a ha hb
                simp only [List.mem_singleton] at hb
                subst hb
                exact h3 ha⟩
            · rw [sumValues_incrKey s.votes c ih.1 h2, ih.2.2,
                List.length_append]
              rfl
        · simp only [if_pos h1, if_neg h2]
          exact ih
      · simp only [if_neg h1]
        exact ih

/-- Claim C2: in every reachable session state — at construction and after
any sequence of operations — the sum of the vote counts equals the number
of voters who voted (the voted set stays duplicate-free, so the list
length is its cardinality). -/
theorem c2_invariant (s : ElectionState) (h : Reachable s) :
    s.voted.Nodup ∧ sumValues s.votes = s.voted.length :=
  ⟨(reachable_invariant s h).2.1, (reachable_invariant s h).2.2⟩

/-- The session state after the example voter registers and votes for
candidate C1. -/
def demoS2 : ElectionState := castVoteState demoS1 "V1" "C1"

/-- Witness for C2: the concrete state after one registration and one
cast is reachable and satisfies the invariant with one vote counted. -/
theorem c2_invariant_witness :
    Reachable demoS2 ∧ sumValues demoS2.votes = demoS2.voted.length ∧
    sumValues demoS2.votes = 1 := by
  have hr : Reachable demoS2 :=
    Reachable.cast demoS1 "V1" "C1"
      (Reachable.register (createElection demoCandidates) demoVoter
        (Reachable.init demoCandidates))
  exact ⟨hr, (c2_invariant demoS2 hr).2, by decide⟩

/-! ## Claims C8 and C10: the validator -/

theorem jsLt_undef_left (b : JSVal) : jsLtB .undefined b = false := by
  cases b <;> rfl

theorem getField_undef_of_not_hasOwn (v : JSVal) (k : String)
    (hobj : typeofJS v = "object") (h : hasOwnB v k = false) :
    getField v k = .undefined := by
  cases v with
  | vobj fields =>
      simp only [hasOwnB] at h
      simp only [getField, lookupField]
      cases hl : fields.lookup k with
      | none => rfl
      | some w =>
          rw [hl] at h
          simp at h
  | varr xs =>
      simp only [hasOwnB] at h
      simp only [getField]
      by_cases hk : k = "length"
      · rw [if_pos hk] at h
        simp at h
      · rw [if_neg hk] at h
        rw [if_neg hk]
        cases hn : k.toNat? with
        | none => rfl
        | some i =>
            rw [hn] at h
            have h' : decide (i < xs.length) = false := h
            simp only [decide_eq_false_iff_not, not_lt] at h'
            have hnone : xs.get? i = none := List.get?_eq_none.mpr h'
            show (xs.get? i).getD JSVal.undefined = JSVal.undefined
            rw [hnone]
            rfl
  | vnull => rfl
  | vstr s => simp [typeofJS] at hobj
  | undefined => simp [typeofJS] at hobj
  | vbool b => simp [typeofJS] at hobj
  | num n => simp [typeofJS] at hobj
  | nan => rfl

theorem find?_first {α : Type} (p : α → Bool) :
    ∀ (pre : List α) (f : α) (post : List α),
      (∀ g ∈ pre, p g = false) → p f = true →
      (pre ++ f :: post).find? p = some f := by
  intro pre
  induction pre with
  | nil =>
      intro f post _ hf
      simp [List.find?, hf]
  | cons g rest ih =>
      intro f post hpre hf
      have hg : p g = false := hpre g (List.mem_cons_self _ _)
      simp only [List.cons_append, List.find?, hg]
      exact ih f post (fun x hx => hpre x (List.mem_cons_of_mem _ hx)) hf

/-- The validator's run on a truthy-object rules value and truthy-object
voter, reduced to its three checks. -/
theorem validator_eval (rules voter : JSVal)
    (ht : truthyB rules = true) (ho : typeofJS rules = "object")
    (hvt : truthyB voter = true) (hvo : typeofJS voter = "object") :
    createVoteValidator rules voter =
      match iterElems (requiredFieldsOf rules) with
      | none => .error ()
      | some fields =>
          match fields.find? (fun f => ! hasOwnB voter (jsToString f)) with
          | some f =>
              .ok { valid := false
                    reason := some ("Missing field: " ++ jsToString f) }
          | none =>
              if jsLtB (getField voter "age") (minAgeOf rules) then
                .ok { valid := false
                      reason := some ("Voter below minimum age " ++
                        jsToString (minAgeOf rules)) }
              else .ok { valid := true, reason := some "" } := by
  simp [createVoteValidator, ht, ho, hvt, hvo]

/-- The validator's run, specialized to an iterable requiredFields. -/
theorem validator_eval_some (rules voter : JSVal)
    (ht : truthyB rules = true) (ho : typeofJS rules = "object")
    (hvt : truthyB voter = true) (hvo : typeofJS voter = "object")
    (fields : List JSVal)
    (hiter : iterElems (requiredFieldsOf rules) = some fields) :
    createVoteValidator rules voter =
      match fields.find? (fun f => ! hasOwnB voter (jsToString f)) with
      | some f =>
          .ok { valid := false
                reason := some ("Missing field: " ++ jsToString f) }
      | none =>
          if jsLtB (getField voter "age") (minAgeOf rules) then
            .ok { valid := false
                  reason := some ("Voter below minimum age " ++
                    jsToString (minAgeOf rules)) }
          else .ok { valid := true, reason := some "" } := by
  rw [validator_eval rules voter ht ho hvt hvo, hiter]

/-- Counterexample to claim C8 as stated: with the truthy object rules
value { requiredFields: 5 } — not a well-formed configuration — the
factory does not return the degenerate always-{ valid: false } validator;
the returned validator throws a TypeError on every object voter (for..of
over the non-iterable 5), so it is also not never-throwing. -/
theorem c8_counterexample :
    createVoteValidator (.vobj [("requiredFields", .num 5)])
      (.vobj [("id", .vstr "x")]) = .error () := rfl

/-- Claim C8 as amended: if rules is not a truthy object the factory
returns the degenerate validator always reporting valid false with no
reason; otherwise (minAge defaulting to 18 and requiredFields to
id, name, age when the respective property is undefined) the validator
rejects a non-object voter with reason "Invalid voter object"; then,
when requiredFields is iterable, it rejects the first missing field in
iteration order with reason "Missing field: <fieldName>", rejects
voter.age < minAge with reason "Voter below minimum age <minAge>", and
otherwise reports valid with an empty reason — but when requiredFields is
neither undefined nor iterable the validator throws a TypeError on every
object voter instead of returning a result. -/
theorem c8_validator_amended (rules voter : JSVal) :
    (¬ (truthyB rules = true ∧ typeofJS rules = "object") →
       createVoteValidator rules voter =
         .ok { valid := false, reason := none }) ∧
    (truthyB rules = true → typeofJS rules = "object" →
      (¬ (truthyB voter = true ∧ typeofJS voter = "object") →
         createVoteValidator rules voter =
           .ok { valid := false, reason := some "Invalid voter object" }) ∧
      (truthyB voter = true → typeofJS voter = "object" →
        (iterElems (requiredFieldsOf rules) = none →
           createVoteValidator rules voter = .error ()) ∧
        (∀ fields, iterElems (requiredFieldsOf rules) = some fields →
          (∀ pre f post, fields = pre ++ f :: post →
             (∀ g ∈ pre, hasOwnB voter (jsToString g) = true) →
             hasOwnB voter (jsToString f) = false →
             createVoteValidator rules voter =
               .ok { valid := false
                     reason := some ("Missing field: " ++ jsToString f) }) ∧
          ((∀ f ∈ fields, hasOwnB voter (jsToString f) = true) →
            (jsLtB (getField voter "age") (minAgeOf rules) = true →
               createVoteValidator rules voter =
                 .ok { valid := false
                       reason := some ("Voter below minimum age " ++
                         jsToString (minAgeOf rules)) }) ∧
            (jsLtB (getField voter "age") (minAgeOf rules) = false →
               createVoteValidator rules voter =
                 .ok { valid := true, reason := some "" }))))) := by
  constructor
  · intro hnot
    simp [createVoteValidator, hnot]
  · intro ht ho
    constructor
    · intro hnv
      simp [createVoteValidator, ht, ho, hnv]
    · intro hvt hvo
      constructor
      · intro hiter
        rw [validator_eval rules voter ht ho hvt hvo, hiter]
      · intro fields hiter
        have hev := validator_eval_some rules voter ht ho hvt hvo
          fields hiter
        constructor
        · intro pre f post hsplit hpre hf
          subst hsplit
          have hfind :
              (pre ++ f :: post).find?
                (fun f => ! hasOwnB voter (jsToString f)) = some f := by
            apply find?_first
            · intro g hg
              simp [hpre g hg]
            · simp [hf]
          rw [hev, hfind]
        · intro hall
          have hfind :
              fields.find? (fun f => ! hasOwnB voter (jsToString f)) =
                none :=
            List.find?_eq_none.mpr (fun x hx => by simp [hall x hx])
          constructor
          · intro hlt
            rw [hev, hfind]
            simp [hlt]
          · intro hlt
            rw [hev, hfind]
            simp [hlt]

/-- Witness for C8 (amended): the spec's example — rules with minAge 21
and required fields id, age; voter v1 aged 19 — yields valid false with
reason "Voter below minimum age 21". -/
theorem c8_validator_witness :
    createVoteValidator
      (.vobj [("minAge", .num 21),
        ("requiredFields", .varr [.vstr "id", .vstr "age"])])
      (.vobj [("id", .vstr "v1"), ("age", .num 19)]) =
      .ok { valid := false, reason := some "Voter below minimum age 21" } := by
  have h := (c8_validator_amended
    (.vobj [("minAge", .num 21),
      ("requiredFields", .varr [.vstr "id", .vstr "age"])])
    (.vobj [("id", .vstr "v1"), ("age", .num 19)])).2 rfl rfl
  have h2 := (((h.2 rfl rfl).2 [.vstr "id", .vstr "age"] rfl).2 (by
    intro f hf
    fin_cases hf <;> rfl)).1 rfl
  exact h2

/-- Claim C10: with a rules object whose requiredFields is an array the
voter has all fields of (and therefore no "age" among them when the voter
carries no age field), a voter object with no age property at all passes
the validator — voter.age reads as undefined and undefined < minAge is
false for every minAge, so the minimum-age check never rejects an absent
age. -/
theorem c10_age_absent (rules voter : JSVal) (fs : List JSVal)
    (ht : truthyB rules = true) (ho : typeofJS rules = "object")
    (hrf : getField rules "requiredFields" = .varr fs)
    (hvt : truthyB voter = true) (hvo : typeofJS voter = "object")
    (hage : hasOwnB voter "age" = false)
    (hall : ∀ f ∈ fs, hasOwnB voter (jsToString f) = true) :
    createVoteValidator rules voter =
      .ok { valid := true, reason := some "" } := by
  rw [validator_eval rules voter ht ho hvt hvo]
  have hreq : requiredFieldsOf rules = .varr fs := by
    simp [requiredFieldsOf, destructDefault, hrf, isUndefB]
  rw [hreq]
  simp only [iterElems]
  have hfind : fs.find? (fun f => ! hasOwnB voter (jsToString f)) = none :=
    List.find?_eq_none.mpr (fun x hx => by simp [hall x hx])
  rw [hfind]
  have hgf : getField voter "age" = .undefined :=
    getField_undef_of_not_hasOwn voter "age" hvo hage
  rw [hgf, jsLt_undef_left]
  rfl

/-- Witness for C10: rules with minAge 99 and required field id only; the
voter { id: "v" } with no age field validates successfully. -/
theorem c10_age_absent_witness :
    createVoteValidator
      (.vobj [("minAge", .num 99), ("requiredFields", .varr [.vstr "id"])])
      (.vobj [("id", .vstr "v")]) =
      .ok { valid := true, reason := some "" } := by
  apply c10_age_absent
    (.vobj [("minAge", .num 99), ("requiredFields", .varr [.vstr "id"])])
    (.vobj [("id", .vstr "v")]) [.vstr "id"] rfl rfl rfl rfl rfl rfl
  intro f hf
  fin_cases hf
  rfl

/-! ## Claims C7 and C4: sorting, results and the winner

Array.prototype.sort with a consistent comparator produces the stable
sorted permutation of the array; the embedding realizes it as insertion
sort.  The lemmas below prove the permutation, sortedness and stability
properties getResults relies on, and from them the winner
characterization. -/

theorem filter_orderedInsert {α : Type} (r : α → α → Prop) [DecidableRel r]
    (p : α → Bool) (hcomp : ∀ x y, p x = true → ¬ r x y → p y = false)
    (x : α) (l : List α) :
    (l.orderedInsert r x).filter p = (x :: l).filter p := by
  induction l with
  | nil => rfl
  | cons y ys ih =>
      by_cases hr : r x y
      · simp only [List.orderedInsert, if_pos hr]
      · simp only [List.orderedInsert, if_neg hr]
        by_cases hpx : p x = true
        · have hpy : p y = false := hcomp x y hpx hr
          have h1 : (y :: (ys.orderedInsert r x)).filter p =
              (ys.orderedInsert r x).filter p := by
            rw [List.filter_cons, hpy]
            simp
          have h2 : (x :: y :: ys).filter p = x :: (y :: ys).filter p := by
            rw [List.filter_cons, hpx]
            simp
          have h3 : (y :: ys).filter p = ys.filter p := by
            rw [List.filter_cons, hpy]
            simp
          have h4 : (x :: ys).filter p = x :: ys.filter p := by
            rw [List.filter_cons, hpx]
            simp
          rw [h1, ih, h4, h2, h3]
        · have hpx' : p x = false := by
            simpa using hpx
          have h4 : (x :: ys).filter p = ys.filter p := by
            rw [List.filter_cons, hpx']
            simp
          have h5 : (x :: y :: ys).filter p = (y :: ys).filter p := by
            rw [List.filter_cons, hpx']
            simp
          rw [h5, List.filter_cons, List.filter_cons, ih, h4]

theorem filter_insertionSort {α : Type} (r : α → α → Prop) [DecidableRel r]
    (p : α → Bool) (hcomp : ∀ x y, p x = true → ¬ r x y → p y = false)
    (l : List α) :
    (l.insertionSort r).filter p = l.filter p := by
  induction l with
  | nil => rfl
  | cons x xs ih =>
      simp only [List.insertionSort]
      rw [filter_orderedInsert r p hcomp x (xs.insertionSort r)]
      simp only [List.filter_cons, ih]

theorem getResults_none_perm (s : ElectionState) :
    (getResults s none).Perm (buildResults s) :=
  List.perm_insertionSort _ _

theorem getResults_none_sorted (s : ElectionState) :
    List.Sorted (fun a b => b.votes ≤ a.votes) (getResults s none) := by
  haveI : IsTotal ResultRecord (cmpLe defaultCmp) :=
    ⟨fun a b => by unfold cmpLe defaultCmp; omega⟩
  haveI : IsTrans ResultRecord (cmpLe defaultCmp) :=
    ⟨fun a b c h1 h2 => by unfold cmpLe defaultCmp at h1 h2 ⊢; omega⟩
  have hs := List.sorted_insertionSort (cmpLe defaultCmp) (buildResults s)
  exact hs.imp (fun h => by unfold cmpLe defaultCmp at h; omega)

theorem getResults_none_stable (s : ElectionState) (p : ResultRecord → Bool)
    (hcomp : ∀ x y, p x = true → ¬ cmpLe defaultCmp x y → p y = false) :
    (getResults s none).filter p = (buildResults s).filter p :=
  filter_insertionSort (cmpLe defaultCmp) p hcomp (buildResults s)

theorem find?_eq_head?_filter {α : Type} (p : α → Bool) (l : List α) :
    l.find? p = (l.filter p).head? := by
  induction l with
  | nil => rfl
  | cons x xs ih =>
      by_cases hx : p x = true
      · rw [List.find?_cons_of_pos _ hx, List.filter_cons, if_pos hx]
        rfl
      · have hx' : p x = false := by simpa using hx
        rw [List.find?_cons_of_neg _ hx, List.filter_cons, hx']
        simp only [Bool.false_eq_true, if_false]
        exact ih

/-- Claim C7: getResults builds one record per candidate in candidate-list
order with votes defaulting to 0; with no (or a non-function) sortFn the
records are sorted by votes descending, stably for equal vote counts; with
a valid comparator sortFn (total and transitive in its nonpositive
direction) the records are the stable sort by that comparator: a
permutation of the built records, sorted, and preserving the built order
inside every comparator-equivalence class. -/
theorem c7_getResults_spec (s : ElectionState)
    (f : ResultRecord → ResultRecord → Int)
    (htot : ∀ a b, f a b ≤ 0 ∨ f b a ≤ 0)
    (htrans : ∀ a b c, f a b ≤ 0 → f b c ≤ 0 → f a c ≤ 0) :
    (buildResults s = s.candidates.map (fun c =>
       { id := c.id, name := c.name, party := c.party
         votes := countOf s.votes c.id })) ∧
    ((getResults s none).Perm (buildResults s) ∧
     List.Sorted (fun a b => b.votes ≤ a.votes) (getResults s none) ∧
     (∀ v : Nat, (getResults s none).filter (fun r => r.votes == v) =
        (buildResults s).filter (fun r => r.votes == v))) ∧
    ((getResults s (some f)).Perm (buildResults s) ∧
     List.Sorted (cmpLe f) (getResults s (some f)) ∧
     (∀ x : ResultRecord,
        (getResults s (some f)).filter
          (fun y => decide (f x y ≤ 0) && decide (f y x ≤ 0)) =
        (buildResults s).filter
          (fun y => decide (f x y ≤ 0) && decide (f y x ≤ 0)))) := by
  refine ⟨rfl, ⟨getResults_none_perm s, getResults_none_sorted s, ?_⟩,
    ⟨List.perm_insertionSort _ _, ?_, ?_⟩⟩
  · intro v
    apply getResults_none_stable
    intro x y hpx hr
    unfold cmpLe defaultCmp at hr
    simp only [beq_iff_eq] at hpx
    simp only [beq_eq_false_iff_ne]
    omega
  · haveI : IsTotal ResultRecord (cmpLe f) := ⟨fun a b => htot a b⟩
    haveI : IsTrans ResultRecord (cmpLe f) :=
      ⟨fun a b c h1 h2 => htrans a b c h1 h2⟩
    exact List.sorted_insertionSort (cmpLe f) (buildResults s)
  · intro x
    apply filter_insertionSort
    intro a b hpa hr
    unfold cmpLe at hr
    simp only [Bool.and_eq_true, decide_eq_true_eq] at hpa
    by_contra hpb
    rw [Bool.not_eq_false, Bool.and_eq_true, decide_eq_true_eq,
      decide_eq_true_eq] at hpb
    exact hr (htrans a x b hpa.2 hpb.1)

/-- Witness for C7: in the concrete two-candidate session after one vote,
getResults with the votes-descending comparator supplied explicitly is a
sorted permutation of the built records. -/
theorem c7_getResults_witness :
    (getResults demoS2 (some defaultCmp)).Perm (buildResults demoS2) ∧
    List.Sorted (cmpLe defaultCmp) (getResults demoS2 (some defaultCmp)) := by
  have h := c7_getResults_spec demoS2 defaultCmp
    (fun a b => by unfold defaultCmp; omega)
    (fun a b c h1 h2 => by unfold defaultCmp at h1 h2 ⊢; omega)
  exact ⟨h.2.2.1, h.2.2.2.1⟩

theorem foldl_winner_const (t : List ResultRecord) :
    ∀ (m : Int) (w : Option ResultRecord),
      (∀ r ∈ t, (r.votes : Int) ≤ m) →
      t.foldl (fun acc r =>
        if (r.votes : Int) > acc.1 then ((r.votes : Int), some r) else acc)
        (m, w) = (m, w) := by
  induction t with
  | nil =>
      intro m w _
      rfl
  | cons r rest ih =>
      intro m w hm
      rw [List.foldl_cons]
      have hle : ¬ ((r.votes : Int) > m) := by
        have := hm r (List.mem_cons_self _ _)
        omega
      have hstep : (if (r.votes : Int) > (m, w).1
          then ((r.votes : Int), some r) else (m, w)) = (m, w) := by
        simp [hle]
      rw [hstep]
      exact ih m w (fun q hq => hm q (List.mem_cons_of_mem _ hq))

theorem getWinner_loop_sorted (l : List ResultRecord)
    (h : List.Sorted (fun a b => b.votes ≤ a.votes) l) :
    (l.foldl (fun acc r =>
      if (r.votes : Int) > acc.1 then ((r.votes : Int), some r) else acc)
      ((-1 : Int), (none : Option ResultRecord))).2 = l.head? := by
  cases l with
  | nil => rfl
  | cons h0 t =>
      rw [List.foldl_cons]
      have hfirst : (if (h0.votes : Int) >
            (((-1 : Int), (none : Option ResultRecord))).1
          then ((h0.votes : Int), some h0)
          else ((-1 : Int), (none : Option ResultRecord))) =
          ((h0.votes : Int), some h0) := by
        have hgt : (h0.votes : Int) > -1 := by omega
        simp [hgt]
      rw [hfirst]
      have hbound : ∀ r ∈ t, (r.votes : Int) ≤ (h0.votes : Int) := by
        intro r hr
        have h2 := List.rel_of_sorted_cons h r hr
        exact_mod_cast h2
      rw [foldl_winner_const t _ _ hbound]
      rfl

/-- Claim C4: getWinner returns (as an Option) exactly the first record,
in the canonical candidate-list order of buildResults, that has a positive
vote count at least as large as every other record's — so it is none
exactly when there are no candidates or all counts are zero, and otherwise
the first-among-ties maximum in original candidate order, independently of
getResults's sorting. -/
theorem c4_getWinner_spec (s : ElectionState) :
    getWinner s = (buildResults s).find?
      (fun r => decide (0 < r.votes) &&
        (buildResults s).all (fun q => q.votes ≤ r.votes)) := by
  have hperm := getResults_none_perm s
  by_cases hall : ∀ r ∈ buildResults s, r.votes = 0
  · have hcond : (getResults s none).length = 0 ∨
        (getResults s none).all (fun r => r.votes == 0) = true := by
      right
      rw [List.all_eq_true]
      intro r hr
      have hrb : r ∈ buildResults s := hperm.subset hr
      simp [hall r hrb]
    have hgw : getWinner s = none := by
      simp only [getWinner]
      rw [if_pos hcond]
    rw [hgw]
    symm
    rw [List.find?_eq_none]
    intro r hr
    simp [hall r hr]
  · push_neg at hall
    obtain ⟨r0, hr0, hr0ne⟩ := hall
    have hr0mem : r0 ∈ getResults s none := hperm.mem_iff.mpr hr0
    have hcond : ¬ ((getResults s none).length = 0 ∨
        (getResults s none).all (fun r => r.votes == 0) = true) := by
      rintro (hlen | hzero)
      · rw [List.length_eq_zero] at hlen
        rw [hlen] at hr0mem
        cases hr0mem
      · have hz := List.all_eq_true.mp hzero r0 hr0mem
        simp at hz
        exact hr0ne hz
    have hgw : getWinner s = ((getResults s none).foldl
        (fun acc r =>
          if (r.votes : Int) > acc.1 then ((r.votes : Int), some r) else acc)
        ((-1 : Int), (none : Option ResultRecord))).2 := by
      simp only [getWinner]
      rw [if_neg hcond]
    rw [hgw, getWinner_loop_sorted _ (getResults_none_sorted s)]
    cases hout : getResults s none with
    | nil =>
        rw [hout] at hr0mem
        cases hr0mem
    | cons h0 t =>
        have hsorted := getResults_none_sorted s
        rw [hout] at hsorted
        have hle : ∀ q ∈ buildResults s, q.votes ≤ h0.votes := by
          intro q hq
          have hq' : q ∈ getResults s none := hperm.mem_iff.mpr hq
          rw [hout] at hq'
          rcases List.mem_cons.mp hq' with rfl | hq'
          · exact le_refl _
          · exact List.rel_of_sorted_cons hsorted q hq'
        have hmem0 : h0 ∈ buildResults s := by
          have hm : h0 ∈ getResults s none := by
            rw [hout]
            exact List.mem_cons_self _ _
          exact hperm.subset hm
        have hpos : 0 < h0.votes :=
          lt_of_lt_of_le (Nat.pos_of_ne_zero hr0ne) (hle r0 hr0)
        have hstable := getResults_none_stable s
          (fun r => r.votes == h0.votes) (by
            intro x y hpx hr
            unfold cmpLe defaultCmp at hr
            simp only [beq_iff_eq] at hpx
            simp only [beq_eq_false_iff_ne]
            omega)
        have hfs : ((getResults s none).filter
            (fun r => r.votes == h0.votes)).head? = some h0 := by
          rw [hout, List.filter_cons]
          simp
        rw [hstable] at hfs
        have hcongr : (buildResults s).find?
            (fun r => decide (0 < r.votes) &&
              (buildResults s).all (fun q => q.votes ≤ r.votes)) =
            (buildResults s).find? (fun r => r.votes == h0.votes) := by
          rw [find?_eq_head?_filter, find?_eq_head?_filter]
          congr 1
          apply List.filter_congr
          intro q hq
          by_cases hqm : q.votes = h0.votes
          · have h2 : (buildResults s).all
                (fun q' => q'.votes ≤ q.votes) = true := by
              rw [List.all_eq_true]
              intro q' hq'
              simp only [decide_eq_true_eq]
              rw [hqm]
              exact hle q' hq'
            simp [h2, hqm, hpos]
            exact hle
          · have hlt : q.votes < h0.votes := lt_of_le_of_ne (hle q hq) hqm
            have h2 : (buildResults s).all
                (fun q' => q'.votes ≤ q.votes) = false := by
              rw [List.all_eq_false]
              refine ⟨h0, hmem0, ?_⟩
              simp only [decide_eq_true_eq]
              omega
            simp [h2, hqm]
        rw [hcongr, find?_eq_head?_filter]
        simp only [List.head?_cons]
        exact hfs.symm

end Panchayat
